import Mathlib

/-
Verification of the bin-packing ILP script (bin_packing_symmetry.py).

The script parses a fixed-format instance file, builds a 0-1 ILP for bin
packing with PySCIPOpt (optionally adding lexicographic symmetry-breaking
constraints), calls the external solver, and prints a report.  The external
solver is opaque; it is modelled by an oracle returning a terminal status,
an objective value, variable values, a node count and an elapsed time.
Python strings are modelled as lists of characters; a raised exception is
modelled by Option.none propagating to the caller.
-/

namespace BinPack

/-- Characters treated as whitespace by Python str.strip and str.split
(the ASCII whitespace range). -/
def isPySpace (c : Char) : Bool :=
  c = ' ' || c = '\t' || c = '\n' || c = '\r' || c = '\x0b' || c = '\x0c'

/-- Python str.strip with no argument: remove leading and trailing whitespace. -/
def pyStrip (l : List Char) : List Char :=
  ((l.dropWhile isPySpace).reverse.dropWhile isPySpace).reverse

/-- Helper for pySplit; the second argument is the current token, reversed. -/
def pySplitAux : List Char → List Char → List (List Char)
  | [], [] => []
  | [], acc => [acc.reverse]
  | c :: rest, acc =>
    if isPySpace c then
      match acc with
      | [] => pySplitAux rest []
      | _ => acc.reverse :: pySplitAux rest []
    else pySplitAux rest (c :: acc)

/-- Python str.split with no argument: split on runs of whitespace,
producing no empty tokens. -/
def pySplit (l : List Char) : List (List Char) := pySplitAux l []

/-- Value of a decimal digit character, none for any other character. -/
def digitVal (c : Char) : Option Nat :=
  if '0' ≤ c ∧ c ≤ '9' then some (c.toNat - '0'.toNat) else none

/-- Accumulating value of a digit string; none on a non-digit. -/
def digitsValAux : List Char → Nat → Option Nat
  | [], acc => some acc
  | c :: rest, acc =>
    match digitVal c with
    | some d => digitsValAux rest (acc * 10 + d)
    | none => none

/-- Value of a nonempty all-digit character list, none otherwise. -/
def digitsVal : List Char → Option Nat
  | [] => none
  | l => digitsValAux l 0

/-- Python int() applied to a string: surrounding whitespace is ignored, an
optional sign is followed by decimal digits; anything else raises ValueError
(modelled as none). -/
def pyInt (l : List Char) : Option Int :=
  match pyStrip l with
  | '+' :: ds => (digitsVal ds).map fun v => (v : Int)
  | '-' :: ds => (digitsVal ds).map fun v => -(v : Int)
  | ds => (digitsVal ds).map fun v => (v : Int)

/-- Parsed bin-packing instance, as returned by parse_instance. -/
structure Instance where
  name : List Char
  capacity : Int
  itemCount : Int
  sizes : List Int
deriving DecidableEq, Repr

/-- Line i of the file; Python readline past end of file returns the empty
string. -/
def lineAt (lines : List (List Char)) (i : Nat) : List Char := lines.getD i []

/-- Sequential reading of the size lines, one integer per line, starting at
line index start; models the list comprehension over range(number_of_objects)
in parse_instance, where any conversion failure raises (none). -/
def readSizes (lines : List (List Char)) (start : Nat) : Nat → Option (List Int)
  | 0 => some []
  | m + 1 =>
    match pyInt (pyStrip (lineAt lines start)), readSizes lines (start + 1) m with
    | some s, some rest => some (s :: rest)
    | _, _ => none

/-- parse_instance: line 1 stripped is the instance name, line 2 must hold
exactly three integers (capacity, number_of_objects, an unused third value),
then number_of_objects lines each hold one integer size.  A missing line, a
non-integer token, or a wrong token count on line 2 raises ValueError,
modelled as none. -/
def parseInstance (lines : List (List Char)) : Option Instance :=
  let nm := pyStrip (lineAt lines 0)
  match (pySplit (pyStrip (lineAt lines 1))).mapM pyInt with
  | some [cap, n, _] =>
    match readSizes lines 2 n.toNat with
    | some sizes => some ⟨nm, cap, n, sizes⟩
    | none => none
  | _ => none

/-- Decision variables of the model: x[i,j] (item i in bin j) and y[j]
(bin j used); every addVar call in the script uses vtype B, so all
variables are binary and assignments below are Bool-valued. -/
inductive Var where
  | x (i j : Nat)
  | y (j : Nat)
deriving DecidableEq, Repr

/-- Constraint schemas added by the script, identified by their indices;
the coefficients come from the instance and are given meaning by satCons.
loadOrder is never produced by bin_packing_symmetry.py; it is the
load-ordering symmetry break the spec attributes to the second script. -/
inductive Cons where
  | placement (i : Nat)
  | capacityC (j : Nat)
  | linking (i j : Nat)
  | lex (j : Nat)
  | loadOrder (j : Nat)
deriving DecidableEq, Repr

/-- Objective sense passed to setObjective. -/
inductive Sense where
  | minimize
  | maximize
deriving DecidableEq, Repr

/-- Variables declared by solve_bin_packing, in declaration order: the x
double loop (i outer, j inner), then the y loop. -/
def buildVars (n : Nat) : List Var :=
  ((List.range n).flatMap fun i => (List.range n).map (Var.x i)) ++
  (List.range n).map Var.y

/-- Constraints added by solve_bin_packing, in order: placement per item,
capacity per bin, linking per pair, then (only when with_symmetry is set)
the lexicographic constraints y[j] >= y[j+1] for j in range(n-1). -/
def buildCons (n : Nat) (withSymmetry : Bool) : List Cons :=
  ((List.range n).map Cons.placement) ++
  ((List.range n).map Cons.capacityC) ++
  ((List.range n).flatMap fun i => (List.range n).map (Cons.linking i)) ++
  (if withSymmetry then (List.range (n - 1)).map Cons.lex else [])

/-- Modelled from the spec: the repository's second script (absent from
src/) also offers a load-ordering symmetry break, the two forms being
independently toggleable; the base formulation and the lexicographic part
are those of buildCons, and when withLoad is set the constraints
sum_i size[i]*x[i,j] >= sum_i size[i]*x[i,j+1] are added for j in
range(n-1). -/
def buildConsFull (n : Nat) (withLex withLoad : Bool) : List Cons :=
  ((List.range n).map Cons.placement) ++
  ((List.range n).map Cons.capacityC) ++
  ((List.range n).flatMap fun i => (List.range n).map (Cons.linking i)) ++
  (if withLex then (List.range (n - 1)).map Cons.lex else []) ++
  (if withLoad then (List.range (n - 1)).map Cons.loadOrder else [])

/-- Model object built by solve_bin_packing: declared variables, objective
sense, the variables summed (with unit coefficients) in the objective, and
the constraint list. -/
structure BPModel where
  vars : List Var
  sense : Sense
  objVars : List Var
  cons : List Cons
deriving DecidableEq, Repr

/-- Model construction of solve_bin_packing: all variables, objective
minimize the sum of the y variables, and the constraints of buildCons. -/
def buildModel (n : Nat) (withSymmetry : Bool) : BPModel :=
  ⟨buildVars n, Sense.minimize, (List.range n).map Var.y, buildCons n withSymmetry⟩

/-- Integer value of a binary variable assignment. -/
def b2i (b : Bool) : Int := if b then 1 else 0

/-- Size of item i (sizes[i] in the script; out-of-range reads do not occur
on parsed instances). -/
def sizeAt (sizes : List Int) (i : Nat) : Int := sizes.getD i 0

/-- Load of bin j: sum over items of size[i]*x[i,j]. -/
def binLoad (sizes : List Int) (n : Nat) (ax : Nat → Nat → Bool) (j : Nat) : Int :=
  ∑ i in Finset.range n, sizeAt sizes i * b2i (ax i j)

/-- Satisfaction of one constraint schema by a 0-1 assignment, with the
instance data supplying the coefficients exactly as in the addCons calls. -/
def satCons (sizes : List Int) (n : Nat) (cap : Int)
    (ax : Nat → Nat → Bool) (ay : Nat → Bool) : Cons → Prop
  | Cons.placement i => (∑ j in Finset.range n, b2i (ax i j)) = 1
  | Cons.capacityC j => binLoad sizes n ax j ≤ cap * b2i (ay j)
  | Cons.linking i j => b2i (ax i j) ≤ b2i (ay j)
  | Cons.lex j => b2i (ay (j + 1)) ≤ b2i (ay j)
  | Cons.loadOrder j => binLoad sizes n ax (j + 1) ≤ binLoad sizes n ax j

instance satConsDecidable (sizes : List Int) (n : Nat) (cap : Int)
    (ax : Nat → Nat → Bool) (ay : Nat → Bool) (c : Cons) :
    Decidable (satCons sizes n cap ax ay c) :=
  match c with
  | Cons.placement _ => inferInstanceAs (Decidable (_ = _))
  | Cons.capacityC _ => inferInstanceAs (Decidable (_ ≤ _))
  | Cons.linking _ _ => inferInstanceAs (Decidable (_ ≤ _))
  | Cons.lex _ => inferInstanceAs (Decidable (_ ≤ _))
  | Cons.loadOrder _ => inferInstanceAs (Decidable (_ ≤ _))

/-- Satisfaction of every constraint in a list. -/
def satAll (sizes : List Int) (n : Nat) (cap : Int) (cs : List Cons)
    (ax : Nat → Nat → Bool) (ay : Nat → Bool) : Prop :=
  ∀ c ∈ cs, satCons sizes n cap ax ay c

instance satAllDecidable (sizes : List Int) (n : Nat) (cap : Int) (cs : List Cons)
    (ax : Nat → Nat → Bool) (ay : Nat → Bool) :
    Decidable (satAll sizes n cap cs ax ay) :=
  inferInstanceAs (Decidable (∀ c ∈ cs, satCons sizes n cap ax ay c))

/-- Objective value of an assignment: the number of used bins. -/
def objVal (n : Nat) (ay : Nat → Bool) : Nat :=
  ∑ j in Finset.range n, (if ay j then 1 else 0)

/-- Value of a sum of variables with unit coefficients (quicksum) under an
assignment. -/
def objOfVars (vs : List Var) (ax : Nat → Nat → Bool) (ay : Nat → Bool) : Int :=
  (vs.map fun v => match v with | Var.x i j => b2i (ax i j) | Var.y j => b2i (ay j)).sum

/-- Achievable objective values of the formulation, with or without the
symmetry-breaking constraints. -/
def feasObj (sizes : List Int) (n : Nat) (cap : Int) (b : Bool) : Set Nat :=
  setOf fun k => ∃ ax ay, satAll sizes n cap (buildCons n b) ax ay ∧ objVal n ay = k

/-- Data read back from the external solver after optimize: terminal status
string, objective value, variable values (available through getVal but never
read by the script), node count, and the locally measured elapsed time. -/
structure SolverOutcome where
  status : String
  obj : Rat
  xVal : Nat → Nat → Rat
  yVal : Nat → Rat
  nodes : Nat
  solvingTime : Rat

/-- Python int() applied to a number: truncation toward zero. -/
def pyTrunc (q : Rat) : Int := if q < 0 then -((-q).floor) else q.floor

/-- Lines printed by the script, one constructor per print statement; the
assign constructor is the per-bin assignment listing the spec describes and
is included so that its absence from the actual output is expressible. -/
inductive OutLine where
  | runningWithout
  | runningWith
  | optimalFound (name : List Char) (boxes : Int)
  | solvingTime (t : Rat)
  | bbNodes (k : Nat)
  | noOptimal
  | assign (j : Nat) (items : List Nat)
  | comparisonHeader
  | timeWithout (t : Rat)
  | nodesWithout (k : Nat)
  | timeWith (t : Rat)
  | nodesWith (k : Nat)
  | usage
deriving DecidableEq, Repr

/-- Whether a printed line is a per-bin assignment listing. -/
def OutLine.isAssign : OutLine → Bool
  | OutLine.assign _ _ => true
  | _ => false

/-- Report block of solve_bin_packing: when getStatus() == "optimal" it
prints the instance name with int(getObjVal()) boxes, then the solving time
and the node count; otherwise a failure line, then the solving time and the
node count.  No variable value is ever read and no assignment is printed. -/
def reportLines (name : List Char) (oc : SolverOutcome) : List OutLine :=
  if oc.status = "optimal" then
    [OutLine.optimalFound name (pyTrunc oc.obj),
     OutLine.solvingTime oc.solvingTime, OutLine.bbNodes oc.nodes]
  else
    [OutLine.noOptimal, OutLine.solvingTime oc.solvingTime, OutLine.bbNodes oc.nodes]

/-- Observable events of a solve call: reading and parsing the instance
file, and handing a built model to the external solver. -/
inductive Event where
  | parseCall
  | optimizeCall (cons : List Cons) (withSymmetry : Bool)
deriving DecidableEq, Repr

/-- Flag of an optimize event, none for other events. -/
def Event.optFlag : Event → Option Bool
  | Event.optimizeCall _ b => some b
  | _ => none

/-- solve_bin_packing modelled: parse the file, build a fresh model from the
parsed instance and the flag, run the external solver (the oracle), and
report.  Returns the event trace, the printed lines and the (time, nodes)
pair; none models a parse exception propagating out of the call. -/
def solveBinPacking (fileLines : List (List Char)) (withSymmetry : Bool)
    (oracle : Bool → SolverOutcome) : Option (List Event × List OutLine × Rat × Nat) :=
  match parseInstance fileLines with
  | none => none
  | some inst =>
    let oc := oracle withSymmetry
    some ([Event.parseCall,
           Event.optimizeCall (buildCons inst.itemCount.toNat withSymmetry) withSymmetry],
          reportLines inst.name oc, oc.solvingTime, oc.nodes)

/-- main modelled: a wrong argument count makes argparse print usage and stop
before any solve; otherwise the without-symmetry run, then the with-symmetry
run, then the comparison block.  fileLines is the content of the file named
by the single argument; none models an uncaught parse exception, on which
the interpreter exits with a nonzero status and a traceback. -/
def mainRun (args : List String) (fileLines : List (List Char))
    (oracle : Bool → SolverOutcome) : Option (List Event × List OutLine) :=
  if args.length = 1 then
    match solveBinPacking fileLines false oracle with
    | none => none
    | some (ev1, out1, t1, n1) =>
      match solveBinPacking fileLines true oracle with
      | none => none
      | some (ev2, out2, t2, n2) =>
        some (ev1 ++ ev2,
          OutLine.runningWithout :: out1 ++ OutLine.runningWith :: out2 ++
          [OutLine.comparisonHeader, OutLine.timeWithout t1, OutLine.nodesWithout n1,
           OutLine.timeWith t2, OutLine.nodesWith n2])
  else some ([], [OutLine.usage])

/-- Concrete well-formed instance file: name u20, capacity 10, three items,
unused third field 0, sizes 4, 5, 6. -/
def fileW : List (List Char) :=
  [['u', '2', '0'], ['1', '0', ' ', '3', ' ', '0'], ['4'], ['5'], ['6']]

/-- Instance parsed from fileW. -/
def instW : Instance := ⟨['u', '2', '0'], 10, 3, [4, 5, 6]⟩

/-- Concrete file whose sizes are out of range: 15 exceeds the capacity 10,
0 and -3 are not positive. -/
def fileO : List (List Char) :=
  [['b'], ['1', '0', ' ', '3', ' ', '0'], ['1', '5'], ['0'], ['-', '3']]

/-- Concrete truncated file: it announces three items but holds only two
size lines. -/
def fileBad : List (List Char) :=
  [['b'], ['1', '0', ' ', '3', ' ', '0'], ['4'], ['5']]

/-- Concrete assignment for witnesses: both items in bin 0. -/
def axW : Nat → Nat → Bool := fun _ j => j == 0

/-- Concrete bin usage for witnesses: only bin 0 used. -/
def ayW : Nat → Bool := fun j => j == 0

/-- Concrete solver oracle: an optimal outcome with objective 2. -/
def oracleW : Bool → SolverOutcome :=
  fun _ => ⟨"optimal", 2, fun _ _ => 1, fun _ => 1, 7, mkRat 1 4⟩

/-- Concrete optimal outcome with a fractional objective 43/5 and every
variable value 1. -/
def ocCE : SolverOutcome := ⟨"optimal", mkRat 43 5, fun _ _ => 1, fun _ => 1, 7, 2⟩

/-- Concrete non-optimal outcome. -/
def ocBad : SolverOutcome := ⟨"infeasible", 0, fun _ _ => 0, fun _ => 0, 3, 1⟩

lemma placement_mem (n : Nat) (b : Bool) (i : Nat) :
    Cons.placement i ∈ buildCons n b ↔ i < n := by
  cases b <;> simp [buildCons]

lemma capacityC_mem (n : Nat) (b : Bool) (j : Nat) :
    Cons.capacityC j ∈ buildCons n b ↔ j < n := by
  cases b <;> simp [buildCons]

lemma linking_mem (n : Nat) (b : Bool) (i j : Nat) :
    Cons.linking i j ∈ buildCons n b ↔ (i < n ∧ j < n) := by
  cases b <;> simp [buildCons]

lemma lex_mem (n : Nat) (b : Bool) (j : Nat) :
    Cons.lex j ∈ buildCons n b ↔ (b = true ∧ j + 1 < n) := by
  cases b
  · simp [buildCons]
  · simp [buildCons]
    omega

lemma loadOrder_not_mem (n : Nat) (b : Bool) (j : Nat) :
    Cons.loadOrder j ∉ buildCons n b := by
  cases b <;> simp [buildCons]

lemma satAll_buildCons_iff (sizes : List Int) (n : Nat) (cap : Int) (b : Bool)
    (ax : Nat → Nat → Bool) (ay : Nat → Bool) :
    satAll sizes n cap (buildCons n b) ax ay ↔
      ((∀ i < n, (∑ j in Finset.range n, b2i (ax i j)) = 1) ∧
       (∀ j < n, binLoad sizes n ax j ≤ cap * b2i (ay j)) ∧
       (∀ i < n, ∀ j < n, b2i (ax i j) ≤ b2i (ay j)) ∧
       (b = true → ∀ j : Nat, j + 1 < n → b2i (ay (j + 1)) ≤ b2i (ay j))) := by
  constructor
  · intro h
    refine ⟨fun i hi => h _ ((placement_mem n b i).mpr hi),
            fun j hj => h _ ((capacityC_mem n b j).mpr hj),
            fun i hi j hj => h _ ((linking_mem n b i j).mpr ⟨hi, hj⟩),
            fun hb j hj => h _ ((lex_mem n b j).mpr ⟨hb, hj⟩)⟩
  · rintro ⟨h1, h2, h3, h4⟩ c hc
    cases c with
    | placement i => exact h1 i ((placement_mem n b i).mp hc)
    | capacityC j => exact h2 j ((capacityC_mem n b j).mp hc)
    | linking i j =>
      obtain ⟨hi, hj⟩ := (linking_mem n b i j).mp hc
      exact h3 i hi j hj
    | lex j =>
      obtain ⟨hb, hj⟩ := (lex_mem n b j).mp hc
      exact h4 hb j hj
    | loadOrder j => exact absurd hc (loadOrder_not_mem n b j)

/-- Application of a permutation of Fin n to a plain index, the identity
outside the range. -/
def permApp (n : Nat) (σ : Equiv.Perm (Fin n)) (j : Nat) : Nat :=
  if hj : j < n then (σ ⟨j, hj⟩ : Fin n) else j

lemma permApp_lt (n : Nat) (σ : Equiv.Perm (Fin n)) (j : Nat) (hj : j < n) :
    permApp n σ j < n := by
  simp only [permApp, dif_pos hj]
  exact (σ ⟨j, hj⟩).isLt

lemma permApp_fin (n : Nat) (σ : Equiv.Perm (Fin n)) (i : Fin n) :
    permApp n σ (i : Nat) = (σ i : Nat) := by
  simp only [permApp, dif_pos i.isLt, Fin.eta]

lemma sum_permApp {M : Type} [AddCommMonoid M] (n : Nat) (σ : Equiv.Perm (Fin n))
    (f : Nat → M) :
    (∑ j in Finset.range n, f (permApp n σ j)) = ∑ j in Finset.range n, f j := by
  rw [← Fin.sum_univ_eq_sum_range (fun j => f (permApp n σ j)) n,
      ← Fin.sum_univ_eq_sum_range f n]
  rw [Finset.sum_congr rfl fun i _ => congrArg f (permApp_fin n σ i)]
  exact Equiv.sum_comp σ fun i : Fin n => f (i : Nat)

/-- Sorting construction: from any assignment satisfying the base
formulation, a bin permutation yields one satisfying the formulation with
the lexicographic constraints and the same objective value. -/
lemma exists_sym_assignment (sizes : List Int) (n : Nat) (cap : Int)
    (ax : Nat → Nat → Bool) (ay : Nat → Bool)
    (h : satAll sizes n cap (buildCons n false) ax ay) :
    ∃ ax2 ay2, satAll sizes n cap (buildCons n true) ax2 ay2 ∧
      objVal n ay2 = objVal n ay := by
  classical
  obtain ⟨h1, h2, h3, -⟩ := (satAll_buildCons_iff sizes n cap false ax ay).mp h
  let g : Fin n → Nat := fun j => if ay j then 0 else 1
  let σ : Equiv.Perm (Fin n) := Tuple.sort g
  have mono : Monotone (g ∘ σ) := Tuple.monotone_sort g
  refine ⟨fun i j => ax i (permApp n σ j), fun j => ay (permApp n σ j), ?_, ?_⟩
  · rw [satAll_buildCons_iff]
    refine ⟨?_, ?_, ?_, ?_⟩
    · intro i hi
      rw [sum_permApp n σ fun j => b2i (ax i j)]
      exact h1 i hi
    · intro j hj
      have : binLoad sizes n (fun i j => ax i (permApp n σ j)) j =
          binLoad sizes n ax (permApp n σ j) := rfl
      rw [this]
      exact h2 _ (permApp_lt n σ j hj)
    · intro i hi j hj
      exact h3 i hi _ (permApp_lt n σ j hj)
    · intro _ j hj1
      have hj : j < n := Nat.lt_of_succ_lt hj1
      have hle : (⟨j, hj⟩ : Fin n) ≤ ⟨j + 1, hj1⟩ := by
        simp [Fin.mk_le_mk]
      have hm := mono hle
      simp only [Function.comp, g] at hm
      simp only [permApp, dif_pos hj, dif_pos hj1]
      by_cases hyj : ay (σ ⟨j, hj⟩) <;> by_cases hyj1 : ay (σ ⟨j + 1, hj1⟩) <;>
        simp [hyj, hyj1, b2i] at hm ⊢
  · exact sum_permApp n σ fun t => if ay t then 1 else 0

lemma satAll_of_true (sizes : List Int) (n : Nat) (cap : Int)
    (ax : Nat → Nat → Bool) (ay : Nat → Bool)
    (h : satAll sizes n cap (buildCons n true) ax ay) :
    satAll sizes n cap (buildCons n false) ax ay := by
  rw [satAll_buildCons_iff] at h ⊢
  exact ⟨h.1, h.2.1, h.2.2.1, fun hb => by cases hb⟩

lemma feasObj_eq (sizes : List Int) (n : Nat) (cap : Int) :
    feasObj sizes n cap true = feasObj sizes n cap false := by
  ext k
  constructor
  · rintro ⟨ax, ay, hsat, hobj⟩
    exact ⟨ax, ay, satAll_of_true sizes n cap ax ay hsat, hobj⟩
  · rintro ⟨ax, ay, hsat, hobj⟩
    obtain ⟨ax2, ay2, hsat2, hobj2⟩ := exists_sym_assignment sizes n cap ax ay hsat
    exact ⟨ax2, ay2, hsat2, hobj2.trans hobj⟩

lemma lineAt_append (pre : List (List Char)) (r : List Char) (rs : List (List Char)) :
    lineAt (pre ++ r :: rs) pre.length = r := by
  induction pre with
  | nil => rfl
  | cons p ps ih => simpa [lineAt, List.getD] using ih

lemma lineAt_of_le (lines : List (List Char)) (i : Nat) (h : lines.length ≤ i) :
    lineAt lines i = [] := by
  simp [lineAt, List.getD, List.getElem?_eq_none h]

lemma readSizes_eq (m : Nat) : ∀ pre rest : List (List Char), m ≤ rest.length →
    readSizes (pre ++ rest) pre.length m =
      (rest.take m).mapM fun l => pyInt (pyStrip l) := by
  induction m with
  | zero =>
    intro pre rest _
    simp [readSizes]
    rfl
  | succ m ih =>
    intro pre rest h
    match rest with
    | [] => simp at h
    | r :: rs =>
      have hl : lineAt (pre ++ r :: rs) pre.length = r := lineAt_append pre r rs
      have step : readSizes (pre ++ r :: rs) (pre.length + 1) m =
          (rs.take m).mapM fun l => pyInt (pyStrip l) := by
        have h2 := ih (pre ++ [r]) rs (by simpa using h)
        simpa using h2
      rw [List.take_succ_cons, List.mapM_cons]
      simp only [readSizes, hl, step]
      cases hp : pyInt (pyStrip r) <;>
        cases hm : (rs.take m).mapM fun l => pyInt (pyStrip l) <;>
          simp

lemma mapM_eq_none {α β : Type} (f : α → Option β) (l : List α) (t : α)
    (ht : t ∈ l) (hf : f t = none) : l.mapM f = none := by
  induction l with
  | nil => cases ht
  | cons a l ih =>
    rw [List.mapM_cons]
    rcases List.mem_cons.mp ht with rfl | ht2
    · simp [hf]
    · cases hfa : f a
      · simp
      · simp only [hfa, ih ht2]
        simp

lemma readSizes_none (lines : List (List Char)) (m : Nat) : ∀ s : Nat,
    (∃ k < m, pyInt (pyStrip (lineAt lines (s + k))) = none) →
    readSizes lines s m = none := by
  induction m with
  | zero =>
    rintro s ⟨k, hk, -⟩
    omega
  | succ m ih =>
    rintro s ⟨k, hk, hnone⟩
    cases k with
    | zero =>
      cases hp : pyInt (pyStrip (lineAt lines s)) <;>
        simp only [Nat.add_zero] at hnone <;>
          simp [readSizes, hp] at hnone ⊢
    | succ k =>
      have hrec : readSizes lines (s + 1) m = none := by
        refine ih (s + 1) ⟨k, by omega, ?_⟩
        rw [show s + 1 + k = s + (k + 1) by omega]
        exact hnone
      cases hp : pyInt (pyStrip (lineAt lines s)) <;> simp [readSizes, hp, hrec]

/-- Successful parse of a structurally well-formed file: line 2 holds
exactly three integers and enough integer size lines follow. -/
lemma parse_wf (l1 l2 : List Char) (rest : List (List Char)) (cap n u : Int)
    (sizes : List Int)
    (h2 : (pySplit (pyStrip l2)).mapM pyInt = some [cap, n, u])
    (hlen : n.toNat ≤ rest.length)
    (hs : (rest.take n.toNat).mapM (fun l => pyInt (pyStrip l)) = some sizes) :
    parseInstance (l1 :: l2 :: rest) = some ⟨pyStrip l1, cap, n, sizes⟩ := by
  have hr : readSizes (l1 :: l2 :: rest) 2 n.toNat = some sizes := by
    have h3 := readSizes_eq n.toNat [l1, l2] rest hlen
    simp only [List.cons_append, List.nil_append, List.length_cons,
      List.length_nil] at h3
    rw [h3, hs]
  simp only [parseInstance]
  rw [show lineAt (l1 :: l2 :: rest) 1 = l2 from rfl, h2]
  show (match readSizes (l1 :: l2 :: rest) 2 n.toNat with
        | some s => some (⟨pyStrip (lineAt (l1 :: l2 :: rest) 0), cap, n, s⟩ : Instance)
        | none => none) = some ⟨pyStrip l1, cap, n, sizes⟩
  rw [hr]
  rfl

lemma parse_none_of_badline (lines : List (List Char)) (cap n u : Int)
    (h2 : (pySplit (pyStrip (lineAt lines 1))).mapM pyInt = some [cap, n, u])
    (k : Nat) (hk : k < n.toNat)
    (hbad : pyInt (pyStrip (lineAt lines (2 + k))) = none) :
    parseInstance lines = none := by
  have hr : readSizes lines 2 n.toNat = none :=
    readSizes_none lines n.toNat 2 ⟨k, hk, hbad⟩
  simp only [parseInstance]
  rw [h2]
  show (match readSizes lines 2 n.toNat with
        | some s => some (⟨pyStrip (lineAt lines 0), cap, n, s⟩ : Instance)
        | none => none) = none
  rw [hr]

lemma parse_none_of_badtoken (lines : List (List Char)) (t : List Char)
    (ht : t ∈ pySplit (pyStrip (lineAt lines 1))) (hbad : pyInt t = none) :
    parseInstance lines = none := by
  have hm : (pySplit (pyStrip (lineAt lines 1))).mapM pyInt = none :=
    mapM_eq_none pyInt _ t ht hbad
  simp only [parseInstance]
  rw [hm]

lemma parse_none_of_short (lines : List (List Char)) (cap n u : Int)
    (h2 : (pySplit (pyStrip (lineAt lines 1))).mapM pyInt = some [cap, n, u])
    (hshort : lines.length < 2 + n.toNat) :
    parseInstance lines = none := by
  by_cases hl2 : 2 ≤ lines.length
  · refine parse_none_of_badline lines cap n u h2 (lines.length - 2) (by omega) ?_
    rw [lineAt_of_le lines (2 + (lines.length - 2)) (by omega)]
    rfl
  · exfalso
    rw [lineAt_of_le lines 1 (by omega)] at h2
    have h2b : (some [] : Option (List Int)) = some [cap, n, u] := h2
    simp at h2b

lemma solve_none (fileLines : List (List Char)) (b : Bool)
    (oracle : Bool → SolverOutcome) (h : parseInstance fileLines = none) :
    solveBinPacking fileLines b oracle = none := by
  simp only [solveBinPacking]
  rw [h]

lemma mainRun_none (args : List String) (fileLines : List (List Char))
    (oracle : Bool → SolverOutcome) (hargs : args.length = 1)
    (h : parseInstance fileLines = none) :
    mainRun args fileLines oracle = none := by
  simp only [mainRun]
  rw [if_pos hargs, solve_none fileLines false oracle h]

lemma list_map_sum_range (n : Nat) (f : Nat → Int) :
    ((List.range n).map f).sum = ∑ j in Finset.range n, f j := by
  induction n with
  | zero => simp
  | succ n ih => rw [List.range_succ]; simp [Finset.sum_range_succ, ih]

/-- C1 counterexample: at the concrete optimal outcome ocCE (status
"optimal", objective 43/5, every variable value 1, so bin 0 passes the
y > 0.5 threshold and item 0 the x > 0.5 threshold), the printed report
contains no per-bin assignment listing at all, and it shows the truncated
objective 8 rather than the nearest integer 9. -/
theorem claim_C1_counterexample :
    ocCE.status = "optimal" ∧ mkRat 1 2 < ocCE.yVal 0 ∧ mkRat 1 2 < ocCE.xVal 0 0 ∧
    ((reportLines ['a'] ocCE).all fun l => ! OutLine.isAssign l) = true ∧
    OutLine.optimalFound ['a'] 9 ∉ reportLines ['a'] ocCE ∧
    OutLine.optimalFound ['a'] 8 ∈ reportLines ['a'] ocCE := by
  decide

/-- C1 (amended): when the solver's terminal status is "optimal" the
reporter prints the instance name with the objective value truncated toward
zero as the number of boxes used, then the solving time and the node count;
when the status is not optimal it prints a failure line, then the solving
time and the node count; in neither case does it print any per-bin
assignment listing. -/
theorem claim_C1 (name : List Char) (oc : SolverOutcome) :
    (oc.status = "optimal" → reportLines name oc =
      [OutLine.optimalFound name (pyTrunc oc.obj), OutLine.solvingTime oc.solvingTime,
       OutLine.bbNodes oc.nodes]) ∧
    (oc.status ≠ "optimal" → reportLines name oc =
      [OutLine.noOptimal, OutLine.solvingTime oc.solvingTime, OutLine.bbNodes oc.nodes]) ∧
    ((reportLines name oc).all fun l => ! OutLine.isAssign l) = true := by
  refine ⟨fun h => by simp [reportLines, h], fun h => by simp [reportLines, h], ?_⟩
  by_cases h : oc.status = "optimal" <;> simp [reportLines, h, OutLine.isAssign]

theorem claim_C1_witness :
    reportLines ['a'] ocCE = [OutLine.optimalFound ['a'] (pyTrunc ocCE.obj),
      OutLine.solvingTime ocCE.solvingTime, OutLine.bbNodes ocCE.nodes] ∧
    reportLines ['a'] ocBad = [OutLine.noOptimal, OutLine.solvingTime ocBad.solvingTime,
      OutLine.bbNodes ocBad.nodes] ∧
    ((reportLines ['a'] ocCE).all fun l => ! OutLine.isAssign l) = true :=
  ⟨(claim_C1 ['a'] ocCE).1 rfl, (claim_C1 ['a'] ocBad).2.1 (by decide),
   (claim_C1 ['a'] ocCE).2.2⟩

/-- C2: the full-formulation builder takes two independent flags, so one,
the other, both, or neither symmetry-breaking form can be selected; when
load ordering is requested the load-order constraint (bin j's load at least
bin j+1's load, per satCons) is in the model for every j with j+1 <= n-1,
the lexicographic constraint is present exactly when its own flag is set,
and with load ordering off the construction is exactly that of
bin_packing_symmetry.py.  The load-ordering form is modelled from the spec,
its script not being under src/. -/
theorem claim_C2 (n : Nat) (withLex withLoad : Bool) :
    (∀ j : Nat, Cons.loadOrder j ∈ buildConsFull n withLex withLoad ↔
      (withLoad = true ∧ j + 1 < n)) ∧
    (∀ j : Nat, Cons.lex j ∈ buildConsFull n withLex withLoad ↔
      (withLex = true ∧ j + 1 < n)) ∧
    buildConsFull n withLex false = buildCons n withLex := by
  refine ⟨fun j => ?_, fun j => ?_, ?_⟩
  · cases withLoad <;> cases withLex <;> simp [buildConsFull] <;> omega
  · cases withLoad <;> cases withLex <;> simp [buildConsFull] <;> omega
  · cases withLex <;> simp [buildConsFull, buildCons]

theorem claim_C2_witness :
    (Cons.loadOrder 0 ∈ buildConsFull 2 true true ↔ (true = true ∧ 0 + 1 < 2)) ∧
    (Cons.lex 0 ∈ buildConsFull 2 true true ↔ (true = true ∧ 0 + 1 < 2)) ∧
    buildConsFull 2 true false = buildCons 2 true :=
  ⟨(claim_C2 2 true true).1 0, (claim_C2 2 true true).2.1 0, (claim_C2 2 true false).2.2⟩

/-- C3: the model built for an instance with n items declares exactly the
binary variables x[i,j] for i,j < n and y[j] for j < n, sets the objective
to minimize the sum of the y variables, and its base constraint list holds
exactly the placement, capacity and linking constraints. -/
theorem claim_C3 (n : Nat) (ax : Nat → Nat → Bool) (ay : Nat → Bool) :
    (∀ i j : Nat, Var.x i j ∈ (buildModel n false).vars ↔ (i < n ∧ j < n)) ∧
    (∀ j : Nat, Var.y j ∈ (buildModel n false).vars ↔ j < n) ∧
    (buildModel n false).sense = Sense.minimize ∧
    objOfVars (buildModel n false).objVars ax ay = (∑ j in Finset.range n, b2i (ay j)) ∧
    (∀ c : Cons, c ∈ (buildModel n false).cons ↔
      ((∃ i, i < n ∧ c = Cons.placement i) ∨ (∃ j, j < n ∧ c = Cons.capacityC j) ∨
       (∃ i, i < n ∧ ∃ j, j < n ∧ c = Cons.linking i j))) := by
  refine ⟨?_, ?_, rfl, ?_, ?_⟩
  · intro i j
    simp [buildModel, buildVars]
  · intro j
    simp [buildModel, buildVars]
  · show objOfVars ((List.range n).map Var.y) ax ay = _
    rw [objOfVars, List.map_map]
    exact list_map_sum_range n fun j => b2i (ay j)
  · intro c
    constructor
    · intro hc
      cases c with
      | placement i => exact Or.inl ⟨i, (placement_mem n false i).mp hc, rfl⟩
      | capacityC j => exact Or.inr (Or.inl ⟨j, (capacityC_mem n false j).mp hc, rfl⟩)
      | linking i j =>
        obtain ⟨hi, hj⟩ := (linking_mem n false i j).mp hc
        exact Or.inr (Or.inr ⟨i, hi, j, hj, rfl⟩)
      | lex j => exact absurd ((lex_mem n false j).mp hc).1 (by simp)
      | loadOrder j => exact absurd hc (loadOrder_not_mem n false j)
    · rintro (⟨i, hi, rfl⟩ | ⟨j, hj, rfl⟩ | ⟨i, hi, j, hj, rfl⟩)
      · exact (placement_mem n false i).mpr hi
      · exact (capacityC_mem n false j).mpr hj
      · exact (linking_mem n false i j).mpr ⟨hi, hj⟩

theorem claim_C3_witness :
    (Var.x 0 1 ∈ (buildModel 2 false).vars ↔ (0 < 2 ∧ 1 < 2)) ∧
    objOfVars (buildModel 2 false).objVars axW ayW = (∑ j in Finset.range 2, b2i (ayW j)) ∧
    (Cons.capacityC 1 ∈ (buildModel 2 false).cons ↔
      ((∃ i, i < 2 ∧ Cons.capacityC 1 = Cons.placement i) ∨
       (∃ j, j < 2 ∧ Cons.capacityC 1 = Cons.capacityC j) ∨
       (∃ i, i < 2 ∧ ∃ j, j < 2 ∧ Cons.capacityC 1 = Cons.linking i j))) :=
  ⟨(claim_C3 2 axW ayW).1 0 1, (claim_C3 2 axW ayW).2.2.2.1,
   (claim_C3 2 axW ayW).2.2.2.2 (Cons.capacityC 1)⟩

/-- C4: the lexicographic constraints y[j] >= y[j+1] are in the built model
exactly when the symmetry flag is set and j+1 < n, and every assignment
satisfying the with-symmetry model has non-increasing bin usage. -/
theorem claim_C4 (sizes : List Int) (n : Nat) (cap : Int) (b : Bool) :
    (∀ j : Nat, Cons.lex j ∈ buildCons n b ↔ (b = true ∧ j + 1 < n)) ∧
    (∀ ax ay, satAll sizes n cap (buildCons n true) ax ay →
      ∀ j : Nat, j + 1 < n → b2i (ay (j + 1)) ≤ b2i (ay j)) :=
  ⟨lex_mem n b, fun _ _ h _ hj => h _ ((lex_mem n true _).mpr ⟨rfl, hj⟩)⟩

theorem claim_C4_witness :
    (Cons.lex 0 ∈ buildCons 2 true ↔ (true = true ∧ 0 + 1 < 2)) ∧
    b2i (ayW (0 + 1)) ≤ b2i (ayW 0) :=
  ⟨(claim_C4 [1, 1] 2 10 true).1 0,
   (claim_C4 [1, 1] 2 10 true).2 axW ayW (by decide) 0 (by decide)⟩

/-- C5: the achievable objective values of the formulation with the
symmetry-breaking constraints are exactly those of the formulation without
them, so in particular the minimum number of bins is unchanged; the
symmetry-broken model only prunes permutation-equivalent assignments. -/
theorem claim_C5 (sizes : List Int) (n : Nat) (cap : Int) :
    feasObj sizes n cap true = feasObj sizes n cap false ∧
    sInf (feasObj sizes n cap true) = sInf (feasObj sizes n cap false) :=
  ⟨feasObj_eq sizes n cap, by rw [feasObj_eq]⟩

/-- C6: on a well-formed file the loader returns line 1 trimmed as the
name, the first two integers of line 2 as capacity and itemCount (the
third is discarded), and the next itemCount lines as the sizes, in order. -/
theorem claim_C6 (l1 l2 : List Char) (rest : List (List Char)) (cap n u : Int)
    (sizes : List Int)
    (h2 : (pySplit (pyStrip l2)).mapM pyInt = some [cap, n, u])
    (hlen : n.toNat ≤ rest.length)
    (hs : (rest.take n.toNat).mapM (fun l => pyInt (pyStrip l)) = some sizes) :
    parseInstance (l1 :: l2 :: rest) = some ⟨pyStrip l1, cap, n, sizes⟩ :=
  parse_wf l1 l2 rest cap n u sizes h2 hlen hs

theorem claim_C6_witness : parseInstance fileW = some instW :=
  claim_C6 ['u', '2', '0'] ['1', '0', ' ', '3', ' ', '0'] [['4'], ['5'], ['6']]
    10 3 0 [4, 5, 6] (by decide) (by decide) (by decide)

/-- C7: a file that is shorter than 2 + itemCount lines, or holds a
non-integer token where an integer is required (on line 2 or on a required
size line), makes the loader fail; the error propagates through
solve_bin_packing to main, which aborts with no result (the interpreter
then exits with a nonzero status and a traceback). -/
theorem claim_C7 (lines : List (List Char)) (args : List String)
    (oracle : Bool → SolverOutcome) (hargs : args.length = 1)
    (hbad :
      (∃ cap n u : Int,
        (pySplit (pyStrip (lineAt lines 1))).mapM pyInt = some [cap, n, u] ∧
        lines.length < 2 + n.toNat) ∨
      (∃ t ∈ pySplit (pyStrip (lineAt lines 1)), pyInt t = none) ∨
      (∃ cap n u : Int,
        (pySplit (pyStrip (lineAt lines 1))).mapM pyInt = some [cap, n, u] ∧
        ∃ k, k < n.toNat ∧ pyInt (pyStrip (lineAt lines (2 + k))) = none)) :
    parseInstance lines = none ∧ mainRun args lines oracle = none := by
  have hp : parseInstance lines = none := by
    rcases hbad with ⟨cap, n, u, h2, hshort⟩ | ⟨t, ht, hnone⟩ | ⟨cap, n, u, h2, k, hk, hnone⟩
    · exact parse_none_of_short lines cap n u h2 hshort
    · exact parse_none_of_badtoken lines t ht hnone
    · exact parse_none_of_badline lines cap n u h2 k hk hnone
  exact ⟨hp, mainRun_none args lines oracle hargs hp⟩

theorem claim_C7_witness :
    parseInstance fileBad = none ∧ mainRun ["f"] fileBad oracleW = none :=
  claim_C7 fileBad ["f"] oracleW rfl (Or.inl ⟨10, 3, 0, by decide, by decide⟩)

/-- C8: a wrong argument count yields only the usage message; otherwise
main performs the without-symmetry solve then the with-symmetry solve,
each exactly once (the optimize events are precisely [false, true] in that
order), and prints the two reports followed by the comparison block with
each run's elapsed time and node count. -/
theorem claim_C8 (args : List String) (fileLines : List (List Char))
    (oracle : Bool → SolverOutcome) :
    (args.length ≠ 1 → mainRun args fileLines oracle = some ([], [OutLine.usage])) ∧
    (∀ inst : Instance, args.length = 1 → parseInstance fileLines = some inst →
      ∃ ev : List Event,
        mainRun args fileLines oracle =
          some (ev,
            OutLine.runningWithout :: reportLines inst.name (oracle false) ++
            OutLine.runningWith :: reportLines inst.name (oracle true) ++
            [OutLine.comparisonHeader, OutLine.timeWithout (oracle false).solvingTime,
             OutLine.nodesWithout (oracle false).nodes,
             OutLine.timeWith (oracle true).solvingTime,
             OutLine.nodesWith (oracle true).nodes]) ∧
        ev.filterMap Event.optFlag = [false, true]) := by
  constructor
  · intro h
    simp only [mainRun, if_neg h]
  · intro inst h1 hp
    have hsf : solveBinPacking fileLines false oracle =
        some ([Event.parseCall,
               Event.optimizeCall (buildCons inst.itemCount.toNat false) false],
              reportLines inst.name (oracle false), (oracle false).solvingTime,
              (oracle false).nodes) := by
      simp only [solveBinPacking]
      rw [hp]
    have hst : solveBinPacking fileLines true oracle =
        some ([Event.parseCall,
               Event.optimizeCall (buildCons inst.itemCount.toNat true) true],
              reportLines inst.name (oracle true), (oracle true).solvingTime,
              (oracle true).nodes) := by
      simp only [solveBinPacking]
      rw [hp]
    refine ⟨[Event.parseCall, Event.optimizeCall (buildCons inst.itemCount.toNat false) false,
             Event.parseCall, Event.optimizeCall (buildCons inst.itemCount.toNat true) true],
            ?_, rfl⟩
    simp only [mainRun, if_pos h1, hsf, hst]
    simp

theorem claim_C8_witness :
    mainRun [] fileW oracleW = some ([], [OutLine.usage]) ∧
    ∃ ev : List Event,
      mainRun ["f"] fileW oracleW =
        some (ev,
          OutLine.runningWithout :: reportLines instW.name (oracleW false) ++
          OutLine.runningWith :: reportLines instW.name (oracleW true) ++
          [OutLine.comparisonHeader, OutLine.timeWithout (oracleW false).solvingTime,
           OutLine.nodesWithout (oracleW false).nodes,
           OutLine.timeWith (oracleW true).solvingTime,
           OutLine.nodesWith (oracleW true).nodes]) ∧
      ev.filterMap Event.optFlag = [false, true] :=
  ⟨(claim_C8 [] fileW oracleW).1 (by decide),
   (claim_C8 ["f"] fileW oracleW).2 instW rfl (by decide)⟩

/-- C9: each solve call is a pure function of the file contents and its own
flag: it re-parses the file (a parse event in each of the two runs) and
hands the solver a model freshly built from that parse and the flag alone,
so nothing built in the first run is visible to or reused by the second. -/
theorem claim_C9 (args : List String) (fileLines : List (List Char))
    (oracle : Bool → SolverOutcome) (inst : Instance)
    (hargs : args.length = 1) (hp : parseInstance fileLines = some inst) :
    (∀ b : Bool, solveBinPacking fileLines b oracle =
      some ([Event.parseCall, Event.optimizeCall (buildCons inst.itemCount.toNat b) b],
        reportLines inst.name (oracle b), (oracle b).solvingTime, (oracle b).nodes)) ∧
    ∃ outs : List OutLine,
      mainRun args fileLines oracle =
        some ([Event.parseCall,
               Event.optimizeCall (buildCons inst.itemCount.toNat false) false,
               Event.parseCall,
               Event.optimizeCall (buildCons inst.itemCount.toNat true) true], outs) := by
  have hs : ∀ b : Bool, solveBinPacking fileLines b oracle =
      some ([Event.parseCall, Event.optimizeCall (buildCons inst.itemCount.toNat b) b],
        reportLines inst.name (oracle b), (oracle b).solvingTime, (oracle b).nodes) := by
    intro b
    simp only [solveBinPacking]
    rw [hp]
  refine ⟨hs, ?_, ?_⟩
  · exact OutLine.runningWithout :: reportLines inst.name (oracle false) ++
      OutLine.runningWith :: reportLines inst.name (oracle true) ++
      [OutLine.comparisonHeader, OutLine.timeWithout (oracle false).solvingTime,
       OutLine.nodesWithout (oracle false).nodes,
       OutLine.timeWith (oracle true).solvingTime,
       OutLine.nodesWith (oracle true).nodes]
  · simp only [mainRun, if_pos hargs, hs false, hs true]
    simp

theorem claim_C9_witness :
    solveBinPacking fileW true oracleW =
      some ([Event.parseCall, Event.optimizeCall (buildCons instW.itemCount.toNat true) true],
        reportLines instW.name (oracleW true), (oracleW true).solvingTime,
        (oracleW true).nodes) ∧
    ∃ outs : List OutLine,
      mainRun ["f"] fileW oracleW =
        some ([Event.parseCall,
               Event.optimizeCall (buildCons instW.itemCount.toNat false) false,
               Event.parseCall,
               Event.optimizeCall (buildCons instW.itemCount.toNat true) true], outs) :=
  ⟨(claim_C9 ["f"] fileW oracleW instW rfl (by decide)).1 true,
   (claim_C9 ["f"] fileW oracleW instW rfl (by decide)).2⟩

/-- C10: the loader performs no range validation: a syntactically
well-formed file parses successfully and its sizes are returned exactly as
written, even when some size exceeds the capacity, equals zero, or is
negative. -/
theorem claim_C10 (l1 l2 : List Char) (rest : List (List Char)) (cap n u : Int)
    (sizes : List Int)
    (h2 : (pySplit (pyStrip l2)).mapM pyInt = some [cap, n, u])
    (hlen : n.toNat ≤ rest.length)
    (hs : (rest.take n.toNat).mapM (fun l => pyInt (pyStrip l)) = some sizes)
    (_hrange : ∃ s ∈ sizes, cap < s ∨ s = 0 ∨ s < 0) :
    parseInstance (l1 :: l2 :: rest) = some ⟨pyStrip l1, cap, n, sizes⟩ :=
  parse_wf l1 l2 rest cap n u sizes h2 hlen hs

theorem claim_C10_witness :
    parseInstance fileO = some ⟨['b'], 10, 3, [15, 0, -3]⟩ :=
  claim_C10 ['b'] ['1', '0', ' ', '3', ' ', '0'] [['1', '5'], ['0'], ['-', '3']]
    10 3 0 [15, 0, -3] (by decide) (by decide) (by decide) (by decide)

end BinPack
